import Mathlib

/-!
Verification development for the TFHE-based client `finalcodes_client/Adder_alice.c`.

The client builds gate-bootstrapping parameters for security level 110, seeds the
process-wide random generator, generates a secret keyset, encrypts two fixed 32-bit
plaintexts and a zero carry bit-by-bit, loads a separately persisted secret key from
`secret.key`, and exports the 96 ciphertexts to `cloud.data`.

The TFHE library primitives (`bootsSymEncrypt`, LWE samples over the discretized
torus, the pseudo-random generator) are not part of this repository; they are
modelled here from the specification, faithfully to its description of the scheme
(per-bit symmetric LWE encryption over Torus32 with bounded noise, a process-wide
deterministic generator seeded explicitly).  Everything in `main` itself (constants,
loop structure, file-handling order, which key is passed to which call) is translated
line by line from the C source.
-/

set_option maxRecDepth 8000

namespace AdderAlice

/-! ### Torus32 arithmetic (modelled from the spec) -/

/-- Modelled from the spec: the discretized torus `Torus32` used by the TFHE library
(not in `src/`), represented as integers taken modulo `2^32`. -/
def T32 : Int := 2 ^ 32

/-- Reduce an integer into the canonical Torus32 representative range `[0, 2^32)`. -/
def torusMod (x : Int) : Int := x % T32

/-- Centered representative of a Torus32 element, in `[-2^31, 2^31)`; used by the
decryption (phase-sign) test. -/
def center32 (x : Int) : Int := (x + 2 ^ 31) % T32 - 2 ^ 31

/-- Modelled from the spec: the plaintext encoding of one bit on the torus, `±1/8`
(namely `±2^29` as a Torus32 value), as used by the gate-bootstrapping symmetric
encryption of the TFHE library (not in `src/`). -/
def muOf (b : Bool) : Int := if b then 2 ^ 29 else -(2 ^ 29)

/-- Inner product of an LWE mask with a binary secret key. -/
def dotT (a : List Int) (s : List Bool) : Int :=
  (List.zip a s).foldl (fun acc p => acc + if p.2 then p.1 else 0) 0

/-- An LWE sample `(a, b)` over Torus32: the ciphertext of one bit. -/
structure LweSample where
  a : List Int
  b : Int
deriving DecidableEq, Repr

/-- Modelled from the spec: symmetric LWE encryption of one bit under secret key `s`
with mask `mask` and noise `e` (`CiphertextCodec.encryptBit`, a TFHE library
primitive not in `src/`): `b = ⟨a, s⟩ + μ(bit) + e` on the torus. -/
def lweSymEncrypt (bit : Bool) (s : List Bool) (mask : List Int) (e : Int) : LweSample :=
  let a := mask.map torusMod
  { a := a, b := torusMod (dotT a s + muOf bit + e) }

/-- Modelled from the spec: symmetric LWE decryption (`CiphertextCodec.decryptBit`, a
TFHE library primitive not in `src/`): recover the phase `b - ⟨a, s⟩` and test its
sign on the centered torus. -/
def lweSymDecrypt (c : LweSample) (s : List Bool) : Bool :=
  decide (0 < center32 (torusMod (c.b - dotT c.a s)))

/-! ### The process-wide pseudo-random generator (modelled from the spec) -/

/-- Modelled from the spec: the process-wide pseudo-random generator state of the
TFHE library (not in `src/`), written by `tfhe_random_generator_setSeed` and read by
key generation and by every probabilistic encryption call. -/
structure Rng where
  state : Nat
deriving DecidableEq, Repr

/-- Modelled from the spec: `tfhe_random_generator_setSeed` — seed the process-wide
generator from the given sequence of integers. -/
def tfhe_random_generator_setSeed (seedWords : List Nat) : Rng :=
  ⟨seedWords.foldl (fun acc x => (acc * 2 ^ 32 + x) % 2 ^ 64) 0⟩

/-- One step of the modelled generator (a 64-bit linear congruential step). -/
def rngStep (r : Rng) : Rng :=
  ⟨(r.state * 6364136223846793005 + 1442695040888963407) % 2 ^ 64⟩

/-- The 32-bit output word of the current generator state. -/
def rngOut (r : Rng) : Nat := r.state / 2 ^ 32 % 2 ^ 32

/-- Draw `n` pseudo-random 32-bit words, threading the generator state. -/
def drawN : Nat → Rng → (List Nat × Rng)
  | 0, r => ([], r)
  | n + 1, r =>
    let r1 := rngStep r
    let rest := drawN n r1
    (rngOut r1 :: rest.1, rest.2)

/-! ### Parameter sets and key material -/

/-- A gate-bootstrapping parameter set: immutable value derived from the minimum
security level, fixing the LWE dimension (hence the ciphertext record size). -/
structure ParamSet where
  lambda : Nat
  lweDim : Nat
deriving DecidableEq, Repr

/-- Modelled from the spec: `new_default_gate_bootstrapping_parameters` (TFHE library,
not in `src/`) — build the parameter set for a minimum security level; the reference
level 110 selects the default LWE dimension 500. -/
def new_default_gate_bootstrapping_parameters (minSecurityLevel : Nat) : ParamSet :=
  { lambda := minSecurityLevel, lweDim := 500 }

/-- Modelled from the spec: `new_random_gate_bootstrapping_secret_keyset` (TFHE
library, not in `src/`) — derive the binary LWE secret key deterministically from the
current process-wide generator state, consuming it. -/
def new_random_gate_bootstrapping_secret_keyset (p : ParamSet) (r : Rng) :
    (List Bool × Rng) :=
  let d := drawN p.lweDim r
  (d.1.map (fun w => w % 2 == 1), d.2)

/-- Draw a fresh LWE mask (one torus word per key coefficient). -/
def drawMask (p : ParamSet) (r : Rng) : (List Int × Rng) :=
  let d := drawN p.lweDim r
  (d.1.map (fun w => torusMod (Int.ofNat w)), d.2)

/-- Draw the per-encryption noise: a small centered error, far inside the `±2^29`
correctness margin of the bit encoding. -/
def drawNoise (r : Rng) : (Int × Rng) :=
  let r1 := rngStep r
  (Int.ofNat (rngOut r1 % 1024) - 512, r1)

/-- Modelled from the spec: `bootsSymEncrypt` (TFHE library, not in `src/`) — encrypt
one bit (a nonzero message encodes `1`) under the secret key, consuming mask and
noise entropy from the process-wide generator. -/
def bootsSymEncrypt (message : Int) (key : List Bool) (p : ParamSet) (r : Rng) :
    (LweSample × Rng) :=
  let m := drawMask p r
  let e := drawNoise m.2
  (lweSymEncrypt (decide (message ≠ 0)) key m.1 e.1, e.2)

/-! ### Bit extraction (`(plaintext >> i) & 1` in the source) -/

/-- Bit `i` of a (signed) integer exactly as the source computes it:
`(plaintext >> i) & 1`, with C arithmetic right shift. -/
def cBitOf (v : Int) (i : Nat) : Int := Int.land (v >>> i) 1

/-- The bit encoding used by the program: the 32 bits `(v >> i) & 1` for
`i = 0, …, 31`, LSB-first (`BitEncoder.toBits` of the spec; the source computes the
same bits inline in each encryption loop). -/
def toBits (v : Int) : List Int := (List.range 32).map (fun i => cBitOf v i)

/-! ### Ciphertext serialization -/

/-- Payload written by `export_gate_bootstrapping_ciphertext_toFile` for one
ciphertext: the fixed-size record of all `lweDim + 1` torus words of the LWE sample,
with no length prefix or framing. -/
def exportRecord (c : LweSample) : List Int := c.a ++ [c.b]

/-! ### The program constants (from `main` in `Adder_alice.c`) -/

/-- `const int minimum_lambda = 110;` -/
def minimum_lambda : Nat := 110

/-- `uint32_t seed[] = { 314, 1592, 657 };` -/
def seedWords : List Nat := [314, 1592, 657]

/-- `int32_t plaintext1 = 1073741823;` -/
def plaintext1 : Int := 1073741823

/-- `int32_t plaintext2 = 1073741823;` -/
def plaintext2 : Int := 1073741823

/-- `int32_t plaintext3 = 0;` (the zero-initialized carry) -/
def plaintext3 : Int := 0

/-! ### The encryption loops -/

/-- One `for (i = 0; i < 32; i++) bootsSymEncrypt(&c[i], bits[i], key);` loop:
encrypt the given message bits in order under `key`, threading the process-wide
generator state. -/
def encryptLoop (key : List Bool) (p : ParamSet) : List Int → Rng → (List LweSample × Rng)
  | [], r => ([], r)
  | m :: ms, r =>
    let c := bootsSymEncrypt m key p r
    let rest := encryptLoop key p ms c.2
    (c.1 :: rest.1, rest.2)

/-- The whole per-integer loop of the source: encrypt `(plaintext >> i) & 1` for
`i = 0, …, 31`, LSB-first. -/
def encryptInt32 (plaintext : Int) (key : List Bool) (p : ParamSet) (r : Rng) :
    (List LweSample × Rng) :=
  encryptLoop key p (toBits plaintext) r

/-! ### Observable events of one run of `main`, in program order -/

/-- Events observable during a run of `main`, in program order: seeding, key
generation, each `bootsSymEncrypt` call (group 1 = `ciphertext1`, 2 = `ciphertext2`,
3 = the carry), the greeting, file opens/closes (with the open outcome), the load of
the persisted key, each ciphertext export, and the (never executed, commented-out)
cloud-key export. -/
inductive Event where
  | setSeedEv (s : List Nat)
  | keygenEv
  | encryptEv (group : Nat) (idx : Nat) (bit : Int)
  | printEv
  | fopenEv (path : String) (writeMode : Bool) (ok : Bool)
  | loadKeyEv (ok : Bool)
  | fcloseEv (path : String)
  | exportEv (group : Nat) (idx : Nat)
  | exportCloudKeyEv
deriving DecidableEq, Repr

/-- The 32 encryption events of one `for` loop, LSB-first. -/
def encryptTraceFor (group : Nat) (plaintext : Int) : List Event :=
  (List.range 32).map (fun i => Event.encryptEv group i (cBitOf plaintext i))

/-- The 32 export events of one export `for` loop, LSB-first. -/
def exportTraceFor (group : Nat) : List Event :=
  (List.range 32).map (fun i => Event.exportEv group i)

/-- The file system a run executes against: the contents (key bits) of each
readable path, `none` when `fopen` for reading would fail. -/
def FileSys : Type := String → Option (List Bool)

/-- The event trace of one complete run of `main`, translated statement by statement
from the source: parameters, `tfhe_random_generator_setSeed`, key generation, three
32-bit encryption loops, `printf`, `fopen`/load/`fclose` of `secret.key`, `fopen` of
`cloud.data` (`wOk` is its outcome), three 32-record export loops, `fclose`.  The
cloud-key export block is commented out in the source, so no `exportCloudKeyEv` is
ever emitted.  This trace describes the well-defined executions; the source never
tests a `FILE*` for `NULL`, so when an open fails the returned NULL stream is
consumed by the next library call and the execution is undefined from inside that
call on — `definedRun` below gives the event prefix the source provably produces in
that case, and agrees with this trace whenever every open succeeds. -/
def mainTrace (fs : FileSys) (wOk : Bool) : List Event :=
  [Event.setSeedEv seedWords, Event.keygenEv]
    ++ encryptTraceFor 1 plaintext1
    ++ encryptTraceFor 2 plaintext2
    ++ encryptTraceFor 3 plaintext3
    ++ [Event.printEv,
        Event.fopenEv "secret.key" false (fs "secret.key").isSome,
        Event.loadKeyEv (fs "secret.key").isSome,
        Event.fcloseEv "secret.key",
        Event.fopenEv "cloud.data" true wOk]
    ++ exportTraceFor 1
    ++ exportTraceFor 2
    ++ exportTraceFor 3
    ++ [Event.fcloseEv "cloud.data"]

/-- The events of one run of `main` that the source actually defines, with a flag
telling whether the run is complete.  `main` never tests a `FILE*` returned by
`fopen`, so on a failed open the NULL stream is passed straight into the next
library call — `new_tfheGateBootstrappingSecretKeySet_fromFile` for `secret.key`,
`export_gate_bootstrapping_ciphertext_toFile` for `cloud.data` — and the behavior
from inside that call on is undefined (realistically a crash): the trace stops at
the entry of that call and the flag is `false`.  When every open succeeds the run is
complete and the trace is `mainTrace`. -/
def definedRun (fs : FileSys) (wOk : Bool) : List Event × Bool :=
  let okR := (fs "secret.key").isSome
  let upToLoad :=
    [Event.setSeedEv seedWords, Event.keygenEv]
      ++ encryptTraceFor 1 plaintext1
      ++ encryptTraceFor 2 plaintext2
      ++ encryptTraceFor 3 plaintext3
      ++ [Event.printEv,
          Event.fopenEv "secret.key" false okR,
          Event.loadKeyEv okR]
  if okR then
    let upToWOpen :=
      upToLoad ++ [Event.fcloseEv "secret.key", Event.fopenEv "cloud.data" true wOk]
    if wOk then
      (upToWOpen ++ exportTraceFor 1 ++ exportTraceFor 2 ++ exportTraceFor 3
         ++ [Event.fcloseEv "cloud.data"], true)
    else
      (upToWOpen ++ [Event.exportEv 1 0], false)
  else
    (upToLoad, false)

/-! ### The data flow of one run of `main` -/

/-- Result of one run of `main`: the parameter set, the freshly generated key, the
key argument actually passed to the `bootsSymEncrypt` calls, the key loaded from
`secret.key`, the three ciphertext arrays, the words written to `cloud.data`, the
lines printed, and the process exit code. -/
structure RunResult where
  params : ParamSet
  genKey : List Bool
  encKey : List Bool
  loadedKey : Option (List Bool)
  ciphertext1 : List LweSample
  ciphertext2 : List LweSample
  ciphertext3 : List LweSample
  cloudData : List Int
  stdout : List String
  exitCode : Int

/-- The data flow of one complete run of `main`, translated statement by statement
from the source.  The key passed to every `bootsSymEncrypt` call is `key`, the
freshly generated keyset; the keyset `bk` loaded afterwards from `secret.key` is
bound and then never used, and all three ciphertext arrays are fully computed before
any file is touched.  The exported words are the 32 records of `ciphertext1`, then of
`ciphertext2`, then of `ciphertext3`, concatenated with no framing; a complete run
prints only the greeting and returns 0.  (For executions where an open fails the
source defines only the prefix modelled by `definedRun`.) -/
def mainRun (fs : FileSys) : RunResult :=
  let params := new_default_gate_bootstrapping_parameters minimum_lambda
  let r0 := tfhe_random_generator_setSeed seedWords
  let kg := new_random_gate_bootstrapping_secret_keyset params r0
  let key := kg.1
  let e1 := encryptInt32 plaintext1 key params kg.2
  let ciphertext1 := e1.1
  let e2 := encryptInt32 plaintext2 key params e1.2
  let ciphertext2 := e2.1
  let e3 := encryptInt32 plaintext3 key params e2.2
  let ciphertext3 := e3.1
  let bk := fs "secret.key"
  { params := params
    genKey := key
    encKey := key
    loadedKey := bk
    ciphertext1 := ciphertext1
    ciphertext2 := ciphertext2
    ciphertext3 := ciphertext3
    cloudData :=
      (ciphertext1.map exportRecord ++ ciphertext2.map exportRecord
        ++ ciphertext3.map exportRecord).flatten
    stdout := ["Hi there! Today, I will ask the cloud the calculation results of the two data you input."]
    exitCode := 0 }

/-- The sequence of fixed-size records written to `cloud.data`, group by group. -/
def exportedRecords (run : RunResult) : List (List Int) :=
  run.ciphertext1.map exportRecord ++ run.ciphertext2.map exportRecord
    ++ run.ciphertext3.map exportRecord

/-! ### Bit-arithmetic helper lemmas -/

theorem ldiff_one (m : Nat) : Nat.ldiff 1 m = 1 - m % 2 := by
  show Nat.bitwise _ 1 m = 1 - m % 2
  unfold Nat.bitwise
  rcases Nat.eq_zero_or_pos m with h | h
  · simp [h]
  · have hm : ¬ (m = 0) := by omega
    simp only [if_neg (by omega : ¬ (1 : Nat) = 0), if_neg hm]
    norm_num
    split <;> omega

theorem int_land_one (v : Int) : Int.land v 1 = v % 2 := by
  rcases v with m | m
  · show (Int.ofNat (m &&& 1)) = _
    rw [Nat.and_one_is_mod, Int.ofNat_eq_natCast, Int.ofNat_eq_natCast]
    push_cast
    ring
  · show (Int.ofNat (Nat.ldiff 1 m)) = _
    rw [ldiff_one, Int.negSucc_eq]
    have h2 : m % 2 = 0 ∨ m % 2 = 1 := by omega
    rcases h2 with h2 | h2 <;> rw [h2, Int.ofNat_eq_natCast] <;> push_cast <;> omega

/-- The source's bit extraction is floor division followed by parity. -/
theorem cBitOf_eq_div_mod (v : Int) (i : Nat) : cBitOf v i = v / 2 ^ i % 2 := by
  rw [cBitOf, int_land_one, Int.shiftRight_eq_div_pow]
  norm_num

theorem cBitOf_zero_or_one (v : Int) (i : Nat) : cBitOf v i = 0 ∨ cBitOf v i = 1 := by
  rw [cBitOf_eq_div_mod]
  omega

/-- Arithmetic-shift bit extraction agrees with extraction from the 32-bit
two's-complement residue `v % 2^32`, for every bit position below 32 — this is what
makes the encoding correct for negative inputs as well. -/
theorem cBitOf_twos_complement (v : Int) (i : Nat) (hi : i < 32) :
    cBitOf v i = (v % 2 ^ 32) / 2 ^ i % 2 := by
  rw [cBitOf_eq_div_mod]
  have hT : (2 : Int) ^ 32 = 2 ^ i * (2 ^ (32 - i)) := by
    rw [← pow_add]
    congr 1
    omega
  have hv := Int.ediv_add_emod v (2 ^ 32)
  set q := v / 2 ^ 32 with hq
  set r := v % 2 ^ 32 with hr
  have hvr : v = r + 2 ^ i * (2 ^ (32 - i) * q) := by
    rw [← mul_assoc, ← hT]
    omega
  rw [hvr, Int.add_mul_ediv_left r _ (by positivity)]
  have h2 : (2 : Int) ^ (32 - i) * q = 2 * (2 ^ (32 - i - 1) * q) := by
    rw [← mul_assoc, ← pow_succ']
    congr 2
    omega
  rw [h2, Int.add_mul_emod_self_left]

theorem toBits_length (v : Int) : (toBits v).length = 32 := by
  simp [toBits]

theorem toBits_get? (v : Int) (i : Nat) (hi : i < 32) :
    (toBits v).get? i = some (cBitOf v i) := by
  simp [toBits, List.get?_eq_getElem?, List.getElem?_map, List.getElem?_range hi]

/-! ### Torus lemmas and scheme correctness -/

theorem torusMod_sub_torusMod (x y : Int) :
    torusMod (torusMod x - y) = torusMod (x - y) := by
  unfold torusMod
  rw [Int.sub_emod, Int.emod_emod_of_dvd _ dvd_rfl, ← Int.sub_emod]

theorem center32_torusMod (x : Int) : center32 (torusMod x) = center32 x := by
  unfold center32 torusMod
  rw [Int.emod_add_emod]

theorem center32_eq_self (x : Int) (h1 : -(2 ^ 31) ≤ x) (h2 : x < 2 ^ 31) :
    center32 x = x := by
  unfold center32 T32
  rw [Int.emod_eq_of_lt (by omega) (by norm_num; omega)]
  omega

/-- Scheme correctness of the modelled symmetric LWE bit encryption: for every bit,
every key, every mask and every noise value inside the `±2^29` margin, decryption
inverts encryption exactly. -/
theorem lweSymEncrypt_correct (bit : Bool) (s : List Bool) (mask : List Int) (e : Int)
    (h1 : -(2 ^ 29) < e) (h2 : e < 2 ^ 29) :
    lweSymDecrypt (lweSymEncrypt bit s mask e) s = bit := by
  unfold lweSymEncrypt lweSymDecrypt
  simp only
  have hsub :
      torusMod (torusMod (dotT (mask.map torusMod) s + muOf bit + e)
          - dotT (mask.map torusMod) s)
        = torusMod (muOf bit + e) := by
    rw [torusMod_sub_torusMod]
    congr 1
    ring
  rw [hsub, center32_torusMod]
  rcases bit with _ | _
  · rw [center32_eq_self _ (by unfold muOf; norm_num; omega) (by unfold muOf; norm_num; omega)]
    unfold muOf
    norm_num
    omega
  · rw [center32_eq_self _ (by unfold muOf; norm_num; omega) (by unfold muOf; norm_num; omega)]
    unfold muOf
    norm_num
    omega

/-- The modelled per-call noise always lies strictly inside the correctness margin. -/
theorem drawNoise_bound (r : Rng) :
    -(2 ^ 29) < (drawNoise r).1 ∧ (drawNoise r).1 < 2 ^ 29 := by
  unfold drawNoise
  simp only
  have h := Nat.mod_lt (rngOut (rngStep r)) (by norm_num : (0 : Nat) < 1024)
  rw [Int.ofNat_eq_natCast]
  omega

/-- Correctness of the modelled `bootsSymEncrypt` as called by the program: the
produced ciphertext decrypts, under the same key, to the encrypted message bit. -/
theorem bootsSymEncrypt_correct (message : Int) (key : List Bool) (p : ParamSet)
    (r : Rng) :
    lweSymDecrypt ((bootsSymEncrypt message key p r).1) key
      = decide (message ≠ 0) := by
  unfold bootsSymEncrypt
  simp only
  exact lweSymEncrypt_correct _ _ _ _ (drawNoise_bound _).1 (drawNoise_bound _).2

/-! ### Structure of the encryption loops -/

theorem drawN_length : ∀ (n : Nat) (r : Rng), ((drawN n r).1).length = n
  | 0, _ => rfl
  | n + 1, r => by
    unfold drawN
    simp only [List.length_cons]
    rw [drawN_length n]

theorem drawMask_length (p : ParamSet) (r : Rng) :
    ((drawMask p r).1).length = p.lweDim := by
  unfold drawMask
  simp [drawN_length]

theorem lweSymEncrypt_a_length (bit : Bool) (s : List Bool) (mask : List Int) (e : Int) :
    (lweSymEncrypt bit s mask e).a.length = mask.length := by
  unfold lweSymEncrypt
  simp

theorem bootsSymEncrypt_a_length (message : Int) (key : List Bool) (p : ParamSet)
    (r : Rng) :
    ((bootsSymEncrypt message key p r).1).a.length = p.lweDim := by
  unfold bootsSymEncrypt
  simp only
  rw [lweSymEncrypt_a_length, drawMask_length]

theorem exportRecord_length (c : LweSample) : (exportRecord c).length = c.a.length + 1 := by
  unfold exportRecord
  simp

theorem encryptLoop_length (key : List Bool) (p : ParamSet) :
    ∀ (ms : List Int) (r : Rng), ((encryptLoop key p ms r).1).length = ms.length
  | [], _ => rfl
  | m :: ms, r => by
    unfold encryptLoop
    simp only [List.length_cons]
    rw [encryptLoop_length key p ms]

theorem encryptLoop_get? (key : List Bool) (p : ParamSet) :
    ∀ (ms : List Int) (r : Rng) (i : Nat) (m : Int), ms.get? i = some m →
      ∃ r1 : Rng,
        ((encryptLoop key p ms r).1).get? i = some ((bootsSymEncrypt m key p r1).1)
  | [], _, i, m, h => by simp at h
  | m0 :: ms, r, 0, m, h => by
    simp at h
    subst h
    exact ⟨r, rfl⟩
  | m0 :: ms, r, i + 1, m, h => by
    simp only [List.get?_cons_succ] at h
    obtain ⟨r1, hr1⟩ :=
      encryptLoop_get? key p ms (bootsSymEncrypt m0 key p r).2 i m h
    exact ⟨r1, by simpa [encryptLoop] using hr1⟩

theorem encryptLoop_mem_a_length (key : List Bool) (p : ParamSet) :
    ∀ (ms : List Int) (r : Rng) (c : LweSample),
      c ∈ (encryptLoop key p ms r).1 → c.a.length = p.lweDim
  | [], _, c, h => by simp [encryptLoop] at h
  | m :: ms, r, c, h => by
    unfold encryptLoop at h
    simp only [List.mem_cons] at h
    rcases h with h | h
    · rw [h, bootsSymEncrypt_a_length]
    · exact encryptLoop_mem_a_length key p ms _ c h

/-- Per-bit decryption behaviour of one whole encryption loop: position `i` holds a
ciphertext of message `ms[i]`. -/
theorem encryptLoop_decrypt (key : List Bool) (p : ParamSet) (ms : List Int) (r : Rng)
    (i : Nat) (m : Int) (h : ms.get? i = some m) :
    ∃ c : LweSample, ((encryptLoop key p ms r).1).get? i = some c ∧
      lweSymDecrypt c key = decide (m ≠ 0) := by
  obtain ⟨r1, hr1⟩ := encryptLoop_get? key p ms r i m h
  exact ⟨_, hr1, bootsSymEncrypt_correct m key p r1⟩

theorem flatten_length_const (c : Nat) :
    ∀ l : List (List Int), (∀ rec ∈ l, rec.length = c) →
      l.flatten.length = l.length * c
  | [], _ => by simp
  | x :: l, h => by
    simp only [List.flatten_cons, List.length_append, List.length_cons]
    rw [h x (by simp), flatten_length_const c l (fun rec hr => h rec (by simp [hr]))]
    ring

/-! ### Named stages of the reference run -/

/-- The parameter set the run builds (`new_default_gate_bootstrapping_parameters(110)`). -/
def params0 : ParamSet := new_default_gate_bootstrapping_parameters minimum_lambda

/-- The generator state right after `tfhe_random_generator_setSeed(seed, 3)`. -/
def rngInit : Rng := tfhe_random_generator_setSeed seedWords

/-- The generated secret keyset and the generator state it leaves behind. -/
def keyPair : List Bool × Rng :=
  new_random_gate_bootstrapping_secret_keyset params0 rngInit

/-- The freshly generated secret key (`key` in the source). -/
def genKey0 : List Bool := keyPair.1

/-- The first encryption loop (`ciphertext1`) with its outgoing generator state. -/
def enc1 : List LweSample × Rng := encryptInt32 plaintext1 genKey0 params0 keyPair.2

/-- The second encryption loop (`ciphertext2`). -/
def enc2 : List LweSample × Rng := encryptInt32 plaintext2 genKey0 params0 enc1.2

/-- The carry encryption loop (`ciphertext3`). -/
def enc3 : List LweSample × Rng := encryptInt32 plaintext3 genKey0 params0 enc2.2

theorem mainRun_params (fs : FileSys) : (mainRun fs).params = params0 := rfl

theorem mainRun_genKey (fs : FileSys) : (mainRun fs).genKey = genKey0 := rfl

theorem mainRun_encKey (fs : FileSys) : (mainRun fs).encKey = genKey0 := rfl

theorem mainRun_loadedKey (fs : FileSys) : (mainRun fs).loadedKey = fs "secret.key" := rfl

theorem mainRun_ciphertext1 (fs : FileSys) : (mainRun fs).ciphertext1 = enc1.1 := rfl

theorem mainRun_ciphertext2 (fs : FileSys) : (mainRun fs).ciphertext2 = enc2.1 := rfl

theorem mainRun_ciphertext3 (fs : FileSys) : (mainRun fs).ciphertext3 = enc3.1 := rfl

theorem mainRun_cloudData (fs : FileSys) :
    (mainRun fs).cloudData = (exportedRecords (mainRun fs)).flatten := rfl

/-! ### Event classifiers and concrete file systems -/

/-- Events that touch the process-wide random generator: seeding, key generation
(which derives key bits from it) and every probabilistic encryption call. -/
def touchesRng : Event → Bool
  | Event.setSeedEv _ => true
  | Event.keygenEv => true
  | Event.encryptEv _ _ _ => true
  | _ => false

def isSetSeed : Event → Bool
  | Event.setSeedEv _ => true
  | _ => false

def isOpenEv : Event → Bool
  | Event.fopenEv _ _ _ => true
  | _ => false

def isWriteOpen : Event → Bool
  | Event.fopenEv _ w _ => w
  | _ => false

def openPath : Event → String
  | Event.fopenEv p _ _ => p
  | _ => ""

def isCloudKeyExport : Event → Bool
  | Event.exportCloudKeyEv => true
  | _ => false

def isExport : Event → Bool
  | Event.exportEv _ _ => true
  | _ => false

def isEncryptOf (g : Nat) : Event → Bool
  | Event.encryptEv g2 _ _ => g2 == g
  | _ => false

/-- A file system on which every `fopen` for reading fails. -/
def fsNone : FileSys := fun _ => none

/-- A file system whose `secret.key` holds the all-zero 500-bit key. -/
def fsAllFalse : FileSys :=
  fun p => if p = "secret.key" then some (List.replicate 500 false) else none

/-- A file system whose `secret.key` holds the single bit `1`. -/
def fsOne : FileSys := fun _ => some [true]

/-- A file system whose `secret.key` is present but empty. -/
def fsEmpty : FileSys := fun _ => some []

/-! ### The claims -/

/-- C3: for every signed 32-bit integer value (including negative values under
two's-complement), the bit encoding used by the program is total and produces a
BitVector of length exactly 32 in which bit `i` equals `(value >> i) & 1`,
LSB-first.  The last clause identifies the extracted bit with bit `i` of the 32-bit
two's-complement residue `v % 2^32`, which is what makes the encoding meaningful for
negative inputs. -/
theorem claim_C3 (v : Int) :
    (toBits v).length = 32 ∧
    (∀ i, i < 32 → (toBits v).get? i = some (cBitOf v i)) ∧
    (∀ i, cBitOf v i = Int.land (v >>> i) 1) ∧
    (∀ i, cBitOf v i = 0 ∨ cBitOf v i = 1) ∧
    (∀ i, i < 32 → cBitOf v i = (v % 2 ^ 32) / 2 ^ i % 2) := by
  refine ⟨toBits_length v, fun i hi => toBits_get? v i hi, fun i => rfl,
    fun i => cBitOf_zero_or_one v i, fun i hi => cBitOf_twos_complement v i hi⟩

/-- Witness for C3 at the negative input `-5`. -/
theorem claim_C3_witness :
    (toBits (-5)).length = 32 ∧
    (toBits (-5)).get? 31 = some (cBitOf (-5) 31) ∧
    cBitOf (-5) 31 = ((-5) % 2 ^ 32) / 2 ^ 31 % 2 :=
  ⟨(claim_C3 (-5)).1, (claim_C3 (-5)).2.1 31 (by decide),
    (claim_C3 (-5)).2.2.2.2 31 (by decide)⟩

/-- C4: for every plaintext bit and every secret key and parameter set, decrypting
the ciphertext produced by encrypting the bit under that key returns the bit exactly
(for every admissible mask and noise draw, hence with probability 1); in particular
every `bootsSymEncrypt` call of the program, whose noise draw always lies inside the
margin, decrypts back to its message bit. -/
theorem claim_C4 :
    (∀ (b : Bool) (s : List Bool) (mask : List Int) (e : Int),
        -(2 ^ 29) < e → e < 2 ^ 29 →
        lweSymDecrypt (lweSymEncrypt b s mask e) s = b) ∧
    (∀ (message : Int) (key : List Bool) (p : ParamSet) (r : Rng),
        lweSymDecrypt ((bootsSymEncrypt message key p r).1) key
          = decide (message ≠ 0)) :=
  ⟨lweSymEncrypt_correct, bootsSymEncrypt_correct⟩

/-- Witness for C4 at a concrete bit, key, mask and noise value, and at a concrete
program-level encryption under the generated key. -/
theorem claim_C4_witness :
    lweSymDecrypt (lweSymEncrypt true [true, false, true] [7, 9, 11] 5)
        [true, false, true] = true ∧
    lweSymDecrypt ((bootsSymEncrypt 1 genKey0 params0 keyPair.2).1) genKey0 = true :=
  ⟨claim_C4.1 true [true, false, true] [7, 9, 11] 5 (by decide) (by decide),
    (claim_C4.2 1 genKey0 params0 keyPair.2).trans (by decide)⟩

/-- C5: in every run, the subsequence of events that touch the process-wide random
generator is exactly one seeding with `{314, 1592, 657}`, then the key generation,
then the 96 encryption calls — so seeding happens strictly before any key-bit
derivation and before every encryption, and no re-seeding occurs anywhere after;
moreover the generated key is a fixed function of the seed alone (the same for every
file system). -/
theorem claim_C5 (fs : FileSys) (wOk : Bool) :
    (mainTrace fs wOk).filter touchesRng
      = Event.setSeedEv seedWords :: Event.keygenEv ::
          (encryptTraceFor 1 plaintext1 ++ encryptTraceFor 2 plaintext2
            ++ encryptTraceFor 3 plaintext3) ∧
    (mainRun fs).genKey
      = (new_random_gate_bootstrapping_secret_keyset
          (new_default_gate_bootstrapping_parameters minimum_lambda)
          (tfhe_random_generator_setSeed seedWords)).1 :=
  ⟨rfl, rfl⟩

/-- C6: the third BitVector written to the transport file is the encryption of a
zero-initialized carry: all 32 of its plaintext bits are 0 — the encrypted messages
of group 3 are all zero, and each ciphertext of group 3 decrypts to `false` under
the session key. -/
theorem claim_C6 (fs : FileSys) (wOk : Bool) :
    toBits plaintext3 = List.replicate 32 0 ∧
    (mainTrace fs wOk).filter (isEncryptOf 3)
      = (List.range 32).map (fun i => Event.encryptEv 3 i 0) ∧
    (∀ i, i < 32 → ∃ c, (mainRun fs).ciphertext3.get? i = some c ∧
        lweSymDecrypt c (mainRun fs).genKey = false) := by
  refine ⟨by decide, rfl, fun i hi => ?_⟩
  rw [mainRun_ciphertext3, mainRun_genKey]
  have hbit : (toBits plaintext3).get? i = some (cBitOf plaintext3 i) :=
    toBits_get? plaintext3 i hi
  obtain ⟨c, hc, hdec⟩ :=
    encryptLoop_decrypt genKey0 params0 (toBits plaintext3) enc2.2 i
      (cBitOf plaintext3 i) hbit
  refine ⟨c, hc, ?_⟩
  rw [hdec]
  have h0 : cBitOf plaintext3 i = 0 := by
    rw [cBitOf_eq_div_mod]
    unfold plaintext3
    simp
  rw [h0]
  decide

/-- Witness for C6 at bit position 0 on the all-failing file system. -/
theorem claim_C6_witness :
    (0 : Nat) < 32 ∧ ∃ c, (mainRun fsNone).ciphertext3.get? 0 = some c ∧
      lweSymDecrypt c (mainRun fsNone).genKey = false :=
  ⟨by decide, (claim_C6 fsNone true).2.2 0 (by decide)⟩

/-- C8: the program never writes the cloud (evaluation) key to any output: the only
file opened for writing in any run is `cloud.data`, no cloud-key export event ever
occurs (the export block is commented out in the source), and the only other file
touched is `secret.key`, opened read-only. -/
theorem claim_C8 (fs : FileSys) (wOk : Bool) :
    ((mainTrace fs wOk).filter isWriteOpen).map openPath = ["cloud.data"] ∧
    (mainTrace fs wOk).countP isCloudKeyExport = 0 ∧
    ((mainTrace fs wOk).filter isOpenEv).map openPath = ["secret.key", "cloud.data"] :=
  ⟨rfl, rfl, rfl⟩

/-- C9: the reference flow takes no command-line input (its only free inputs are the
file system and the open outcome, never consulted for configuration) and uses
exactly the fixed configuration: security level 110, seed `{314, 1592, 657}`,
operands `1073741823` and `1073741823`, carry `0`; consequently the encoded operand
bits are thirty 1s followed by two 0s and the carry bits are all 0. -/
theorem claim_C9 (fs : FileSys) (wOk : Bool) :
    minimum_lambda = 110 ∧
    seedWords = [314, 1592, 657] ∧
    plaintext1 = 1073741823 ∧
    plaintext2 = 1073741823 ∧
    plaintext3 = 0 ∧
    (mainRun fs).params = { lambda := 110, lweDim := 500 } ∧
    (mainTrace fs wOk).filter isSetSeed = [Event.setSeedEv [314, 1592, 657]] ∧
    toBits plaintext1 = List.replicate 30 1 ++ [0, 0] ∧
    toBits plaintext3 = List.replicate 32 0 :=
  ⟨rfl, rfl, rfl, rfl, rfl, rfl, rfl, by decide, by decide⟩

/-- On any run where both opens succeed, the defined trace is complete and is
exactly `mainTrace`. -/
theorem definedRun_complete (fs : FileSys) (k : List Bool)
    (h : fs "secret.key" = some k) :
    definedRun fs true = (mainTrace fs true, true) := by
  unfold definedRun mainTrace
  rw [h]
  simp

/-- C7: the source contradicts the claim at the failing inputs.  On a file system
where the open of `secret.key` fails, the failed open (position 99) is followed by
exactly one more defined event: the entry into
`new_tfheGateBootstrappingSecretKeySet_fromFile` on the NULL stream — an operation
proceeding past the failed open — after which the run is incomplete (undefined
behavior inside the library call, not a clean surfaced abort), and nothing was
surfaced: no ciphertext was exported and the only print is the greeting, emitted
before the open.  Likewise, when the open of `cloud.data` fails, the failed open is
followed by the entry into the first ciphertext export on the NULL stream, and the
run is incomplete. -/
theorem claim_C7_bug :
    (definedRun fsNone true).2 = false ∧
    (definedRun fsNone true).1.length = 101 ∧
    (definedRun fsNone true).1.drop 99
      = [Event.fopenEv "secret.key" false false, Event.loadKeyEv false] ∧
    (definedRun fsNone true).1.countP isExport = 0 ∧
    (definedRun fsOne false).2 = false ∧
    (definedRun fsOne false).1.drop 102
      = [Event.fopenEv "cloud.data" true false, Event.exportEv 1 0] :=
  ⟨rfl, by decide, by decide, by decide, rfl, by decide⟩

/-- C1 counterexample: on a file system whose persisted `secret.key` is the all-zero
500-bit key, the loaded key differs from the key the `bootsSymEncrypt` calls
actually use (the freshly generated one) — so the exported ciphertexts are *not*
encrypted under the loaded key. -/
theorem claim_C1_counterexample :
    (mainRun fsAllFalse).loadedKey = some (List.replicate 500 false) ∧
    (mainRun fsAllFalse).encKey ≠ List.replicate 500 false := by
  refine ⟨rfl, ?_⟩
  rw [mainRun_encKey]
  decide

/-- C1 amended: every bit of the three BitVectors is encrypted under the *freshly
generated* SecretKey, not the loaded one: the key passed to every `bootsSymEncrypt`
call is the generated key, it does not depend on the contents of `secret.key` in any
way, and each exported ciphertext decrypts under the generated key to the
corresponding plaintext bit. -/
theorem claim_C1_amended (fs : FileSys) :
    (mainRun fs).encKey = (mainRun fs).genKey ∧
    (∀ fs2 : FileSys, (mainRun fs).encKey = (mainRun fs2).encKey) ∧
    (∀ i, i < 32 → ∃ c, (mainRun fs).ciphertext1.get? i = some c ∧
        lweSymDecrypt c (mainRun fs).genKey = decide (cBitOf plaintext1 i ≠ 0)) ∧
    (∀ i, i < 32 → ∃ c, (mainRun fs).ciphertext2.get? i = some c ∧
        lweSymDecrypt c (mainRun fs).genKey = decide (cBitOf plaintext2 i ≠ 0)) ∧
    (∀ i, i < 32 → ∃ c, (mainRun fs).ciphertext3.get? i = some c ∧
        lweSymDecrypt c (mainRun fs).genKey = decide (cBitOf plaintext3 i ≠ 0)) := by
  refine ⟨rfl, fun fs2 => rfl, fun i hi => ?_, fun i hi => ?_, fun i hi => ?_⟩
  · rw [mainRun_ciphertext1, mainRun_genKey]
    exact encryptLoop_decrypt genKey0 params0 (toBits plaintext1) keyPair.2 i
      (cBitOf plaintext1 i) (toBits_get? plaintext1 i hi)
  · rw [mainRun_ciphertext2, mainRun_genKey]
    exact encryptLoop_decrypt genKey0 params0 (toBits plaintext2) enc1.2 i
      (cBitOf plaintext2 i) (toBits_get? plaintext2 i hi)
  · rw [mainRun_ciphertext3, mainRun_genKey]
    exact encryptLoop_decrypt genKey0 params0 (toBits plaintext3) enc2.2 i
      (cBitOf plaintext3 i) (toBits_get? plaintext3 i hi)

/-- Witness for the amended C1 at bit position 0 of group 1. -/
theorem claim_C1_amended_witness :
    (0 : Nat) < 32 ∧ ∃ c, (mainRun fsAllFalse).ciphertext1.get? 0 = some c ∧
      lweSymDecrypt c (mainRun fsAllFalse).genKey = decide (cBitOf plaintext1 0 ≠ 0) :=
  ⟨by decide, (claim_C1_amended fsAllFalse).2.2.1 0 (by decide)⟩

theorem enc1_length : enc1.1.length = 32 := by
  show (encryptLoop genKey0 params0 (toBits plaintext1) keyPair.2).1.length = 32
  rw [encryptLoop_length, toBits_length]

theorem enc2_length : enc2.1.length = 32 := by
  show (encryptLoop genKey0 params0 (toBits plaintext2) enc1.2).1.length = 32
  rw [encryptLoop_length, toBits_length]

theorem enc3_length : enc3.1.length = 32 := by
  show (encryptLoop genKey0 params0 (toBits plaintext3) enc2.2).1.length = 32
  rw [encryptLoop_length, toBits_length]

theorem exportedRecords_eq (fs : FileSys) :
    exportedRecords (mainRun fs)
      = enc1.1.map exportRecord ++ enc2.1.map exportRecord ++ enc3.1.map exportRecord :=
  rfl

/-- C2: the transport data written to `cloud.data` is exactly the sequential
concatenation of 96 (= 3 × 32) fixed-size ciphertext records (each of
`lweDim + 1` torus words under the one session parameter set), with no header or
framing (the data is the plain flattening of the records and its total length is
exactly `96 · (lweDim + 1)`), ordered group A first, then group B, then the carry
group, LSB-first within each group (record `i`, `32 + i`, `64 + i` is the export of
the `i`-th ciphertext of group 1, 2, 3 respectively). -/
theorem claim_C2 (fs : FileSys) :
    (exportedRecords (mainRun fs)).length = 96 ∧
    (∀ rec ∈ exportedRecords (mainRun fs), rec.length = (mainRun fs).params.lweDim + 1) ∧
    (mainRun fs).cloudData = (exportedRecords (mainRun fs)).flatten ∧
    (mainRun fs).cloudData.length = 96 * ((mainRun fs).params.lweDim + 1) ∧
    (∀ i, i < 32 → ∃ c1 c2 c3 : LweSample,
      (mainRun fs).ciphertext1.get? i = some c1 ∧
      (mainRun fs).ciphertext2.get? i = some c2 ∧
      (mainRun fs).ciphertext3.get? i = some c3 ∧
      (exportedRecords (mainRun fs)).get? i = some (exportRecord c1) ∧
      (exportedRecords (mainRun fs)).get? (32 + i) = some (exportRecord c2) ∧
      (exportedRecords (mainRun fs)).get? (64 + i) = some (exportRecord c3)) := by
  have hlen : (exportedRecords (mainRun fs)).length = 96 := by
    rw [exportedRecords_eq]
    simp [enc1_length, enc2_length, enc3_length]
  have hdim : (mainRun fs).params.lweDim = 500 := rfl
  have hmem : ∀ rec ∈ exportedRecords (mainRun fs), rec.length = 501 := by
    intro rec hr
    rw [exportedRecords_eq] at hr
    simp only [List.mem_append, List.mem_map] at hr
    rcases hr with (⟨c, hc, he⟩ | ⟨c, hc, he⟩) | ⟨c, hc, he⟩ <;>
      rw [← he, exportRecord_length] <;>
      [rw [encryptLoop_mem_a_length genKey0 params0 (toBits plaintext1) keyPair.2 c hc];
       rw [encryptLoop_mem_a_length genKey0 params0 (toBits plaintext2) enc1.2 c hc];
       rw [encryptLoop_mem_a_length genKey0 params0 (toBits plaintext3) enc2.2 c hc]] <;>
      rfl
  refine ⟨hlen, fun rec hr => by rw [hdim]; exact hmem rec hr, rfl, ?_, fun i hi => ?_⟩
  · rw [mainRun_cloudData, flatten_length_const 501 _ hmem, hlen, hdim]
  · have h1 : i < enc1.1.length := by rw [enc1_length]; exact hi
    have h2 : i < enc2.1.length := by rw [enc2_length]; exact hi
    have h3 : i < enc3.1.length := by rw [enc3_length]; exact hi
    refine ⟨enc1.1.get ⟨i, h1⟩, enc2.1.get ⟨i, h2⟩, enc3.1.get ⟨i, h3⟩,
      List.get?_eq_get h1, List.get?_eq_get h2, List.get?_eq_get h3, ?_, ?_, ?_⟩
    · rw [exportedRecords_eq]
      rw [List.get?_append (by simp [enc1_length, enc2_length]; omega),
        List.get?_append (by simp [enc1_length]; omega),
        List.get?_map, List.get?_eq_get h1]
      rfl
    · rw [exportedRecords_eq]
      rw [List.get?_append (by simp [enc1_length, enc2_length]; omega),
        List.get?_append_right (by simp [enc1_length]),
        List.get?_map]
      have : 32 + i - (enc1.1.map exportRecord).length = i := by
        simp [enc1_length]
      rw [this, List.get?_eq_get h2]
      rfl
    · rw [exportedRecords_eq]
      rw [List.get?_append_right (by simp [enc1_length, enc2_length]),
        List.get?_map]
      have : 64 + i - (enc1.1.map exportRecord ++ enc2.1.map exportRecord).length = i := by
        simp [enc1_length, enc2_length]
      rw [this, List.get?_eq_get h3]
      rfl

/-- Witness for C2 at record position 0 on the all-failing file system. -/
theorem claim_C2_witness :
    (0 : Nat) < 32 ∧ ∃ c1 c2 c3 : LweSample,
      (mainRun fsNone).ciphertext1.get? 0 = some c1 ∧
      (mainRun fsNone).ciphertext2.get? 0 = some c2 ∧
      (mainRun fsNone).ciphertext3.get? 0 = some c3 ∧
      (exportedRecords (mainRun fsNone)).get? 0 = some (exportRecord c1) ∧
      (exportedRecords (mainRun fsNone)).get? 32 = some (exportRecord c2) ∧
      (exportedRecords (mainRun fsNone)).get? 64 = some (exportRecord c3) :=
  ⟨by decide, (claim_C2 fsNone).2.2.2.2 0 (by decide)⟩

/-- C10: the contents of the persisted key file `secret.key` have no influence on
any program output: for any two runs whose `secret.key` is readable (with arbitrary
well-formed contents), the words written to `cloud.data`, the printed output, the
exit code and the entire event trace are identical — the loaded key set is never
used after loading. -/
theorem claim_C10 (fs1 fs2 : FileSys) (k1 k2 : List Bool)
    (h1 : fs1 "secret.key" = some k1) (h2 : fs2 "secret.key" = some k2) :
    (mainRun fs1).cloudData = (mainRun fs2).cloudData ∧
    (mainRun fs1).stdout = (mainRun fs2).stdout ∧
    (mainRun fs1).exitCode = (mainRun fs2).exitCode ∧
    (∀ wOk, mainTrace fs1 wOk = mainTrace fs2 wOk) := by
  refine ⟨rfl, rfl, rfl, fun wOk => ?_⟩
  unfold mainTrace
  rw [h1, h2]
  rfl

/-- Witness for C10: two readable key files with different contents produce the same
transport data. -/
theorem claim_C10_witness :
    fsOne "secret.key" = some [true] ∧ fsEmpty "secret.key" = some [] ∧
    (mainRun fsOne).cloudData = (mainRun fsEmpty).cloudData :=
  ⟨rfl, rfl, (claim_C10 fsOne fsEmpty [true] [] rfl rfl).1⟩

end AdderAlice
